import Mathlib

/-!
Verification development for the Optimum repository (src/src/icp.h).

The C++ code computes over Eigen dynamic real matrices (`Eigen::MatrixXd`).
We embed a dynamic matrix as a `Mat`: a pair of runtime dimensions together
with a total entry function `ℕ → ℕ → ℝ`; only entries with indices below the
dimensions are meaningful, and all operations below read only such entries
(mirroring the loops of the source).  `double` arithmetic is modelled by
real arithmetic.  Eigen allocates dynamic matrices *uninitialized*; wherever
the source reads a matrix entry it never wrote (this actually happens in
`applyTransformation` and `angleToRotMatrix`), the model takes the unknown
contents as an explicit `junk : ℕ → ℕ → ℝ` parameter.

The singular value decomposition (`Eigen::JacobiSVD`) is the external
linear-algebra collaborator; it is modelled as an oracle
`svd : Mat → Mat × Mat` returning the pair `(U, V)`, and theorems that need
its guarantees assume orthogonality of the returned factors, exactly as the
specification does.
-/

namespace Optimum

open Matrix

/-- Dynamic real matrix: the model of `Eigen::MatrixXd`.  `entry i j` is the
coefficient at row `i`, column `j`; indices at or beyond `rows`/`cols` are
out of bounds and never read by the operations below. -/
structure Mat where
  rows : ℕ
  cols : ℕ
  entry : ℕ → ℕ → ℝ

/-- Matrix product, as Eigen's `operator*`: contraction over the left
operand's column count. -/
noncomputable def matMul (A B : Mat) : Mat :=
  ⟨A.rows, B.cols, fun i j => ∑ k in Finset.range A.cols, A.entry i k * B.entry k j⟩

/-- Entrywise sum, as Eigen's `operator+` (the source only adds same-shaped
matrices; the shape is taken from the left operand). -/
noncomputable def matAdd (A B : Mat) : Mat :=
  ⟨A.rows, A.cols, fun i j => A.entry i j + B.entry i j⟩

/-- Matrix transpose, as Eigen's `.transpose()`. -/
noncomputable def transposeMat (A : Mat) : Mat :=
  ⟨A.cols, A.rows, fun i j => A.entry j i⟩

/-- Scaling by `-1.0`, as the source expression `optimalRotation * -1.0`. -/
noncomputable def matTimesNegOne (A : Mat) : Mat :=
  ⟨A.rows, A.cols, fun i j => A.entry i j * (-1 : ℝ)⟩

/-- The square `n × n` identity matrix, as `Eigen::MatrixXd::Identity(n, n)`. -/
noncomputable def matIdentity (n : ℕ) : Mat :=
  ⟨n, n, fun i j => if i = j then 1 else 0⟩

/-- The zero matrix, as `Eigen::MatrixXd::Zero(r, c)`. -/
noncomputable def matZero (r c : ℕ) : Mat :=
  ⟨r, c, fun _ _ => 0⟩

/-- View of a `Mat` as a square Mathlib matrix of the stated size `n`
(meaningful when the `Mat` is `n × n`); used to state determinants and
orthogonality. -/
noncomputable def toFin (n : ℕ) (A : Mat) : Matrix (Fin n) (Fin n) ℝ :=
  Matrix.of fun i j => A.entry i.val j.val

/-- Determinant of a (square) dynamic matrix, as Eigen's `.determinant()`. -/
noncomputable def Mat.det (A : Mat) : ℝ :=
  (toFin A.rows A).det

/-- The constant `#define PI 3.14159265` from the source. -/
noncomputable def PI : ℝ := 3.14159265

/-- Embedding of `Point::distanceTo`: Euclidean distance between two points
of `n` coordinates (a point is modelled as its coordinate function).  The
source squares each coordinate difference with `d*d`, sums, and takes
`sqrt`. -/
noncomputable def distanceTo (p q : ℕ → ℝ) (n : ℕ) : ℝ :=
  Real.sqrt (∑ c in Finset.range n, (p c - q c) * (p c - q c))

/-- Embedding of `OptimalPointMatcher::getCentroid`: column vector of size
`points.cols × 1` whose entry `i` is the mean of column `i`. -/
noncomputable def getCentroid (points : Mat) : Mat :=
  ⟨points.cols, 1, fun i _ =>
    (∑ r in Finset.range points.rows, points.entry r i) / (points.rows : ℝ)⟩

/-- The covariance matrix computed inside
`OptimalPointMatcher::solveForOptimalRotation`: both inputs are centered at
their centroids (the centering loop runs over `ref.rows` rows, so rows of
`target` at index `ref.rows` or beyond would stay uncentered, which the
conditional reflects) and `cov = targetCentered^T * refCentered`. -/
noncomputable def covOf (ref target : Mat) : Mat :=
  let centroidOne := getCentroid target
  let centroidTwo := getCentroid ref
  let refC : Mat :=
    ⟨ref.rows, ref.cols, fun r c => ref.entry r c - centroidTwo.entry c 0⟩
  let targetC : Mat :=
    ⟨target.rows, target.cols, fun r c =>
      if r < ref.rows then target.entry r c - centroidOne.entry c 0 else target.entry r c⟩
  matMul (transposeMat targetC) refC

/-- The candidate rotation `rotation = V * U^T` built inside
`solveForOptimalRotation` from the factors the SVD oracle returns for the
covariance matrix. -/
noncomputable def kabschR0 (svd : Mat → Mat × Mat) (ref target : Mat) : Mat :=
  matMul (svd (covOf ref target)).2 (transposeMat (svd (covOf ref target)).1)

/-- The reflection correction `rotation.row(rotation.rows() - 1) *= -1`
applied inside `solveForOptimalRotation`. -/
noncomputable def negLastRow (M : Mat) : Mat :=
  ⟨M.rows, M.cols, fun i j =>
    if i = M.rows - 1 then -(M.entry i j) else M.entry i j⟩

/-- Embedding of `OptimalPointMatcher::solveForOptimalRotation`: the
candidate rotation `V * U^T`, with the last row negated when the determinant
is negative (the Kabsch reflection correction). -/
noncomputable def solveForOptimalRotation (svd : Mat → Mat × Mat) (ref target : Mat) : Mat :=
  if (kabschR0 svd ref target).det < 0 then negLastRow (kabschR0 svd ref target)
  else kabschR0 svd ref target

/-- Embedding of `OptimalPointMatcher::solveForOptimalTranslation`:
`((optimalRotation * -1.0) * centroid(target)) + centroid(ref)`. -/
noncomputable def solveForOptimalTranslation (ref target optimalRotation : Mat) : Mat :=
  matAdd (matMul (matTimesNegOne optimalRotation) (getCentroid target)) (getCentroid ref)

/-- Embedding of `OptimalPointMatcher::RMSE`.  If the total element counts
(Eigen `.size()` is `rows * cols`) differ, the source prints a diagnostic and
returns `0.0`; otherwise it squares the entries of the difference, sums each
row, takes the square root of each row sum, and returns the sum of those
roots.  The intermediate containers of the source (the `squares` matrix and
the `sumSqrs` / `sqrts` vectors with the final accumulation loop) are kept. -/
noncomputable def RMSE (dataOne dataTwo : Mat) : ℝ :=
  if dataOne.rows * dataOne.cols ≠ dataTwo.rows * dataTwo.cols then 0
  else
    ((((List.range dataOne.rows).map fun r =>
        ∑ c in Finset.range dataOne.cols,
          (dataOne.entry r c - dataTwo.entry r c) *
            (dataOne.entry r c - dataTwo.entry r c)).map
      Real.sqrt).foldl (· + ·) 0)

/-- Embedding of `OptimalPointMatcher::applyTransformation`.  The temporary
`trans` is allocated uninitialized with `data`'s shape; it is filled by
broadcasting `translation` only when `translation`'s shape differs from
`data`'s (column-vector case first, then row-vector case); in every other
case — including the case where the shapes already agree — `trans` keeps its
uninitialized contents, modelled by the `junk` parameter.  This definition is
the entry function of that temporary. -/
noncomputable def broadcastTrans (data translation : Mat) (junk : ℕ → ℕ → ℝ) : ℕ → ℕ → ℝ :=
  if translation.rows ≠ data.rows ∨ translation.cols ≠ data.cols then
    if translation.cols = 1 then fun _ c => translation.entry c 0
    else if translation.rows = 1 then fun _ c => translation.entry 0 c
    else junk
  else junk

/-- Embedding of `OptimalPointMatcher::applyTransformation`: the result is
`(data + trans) * rotation` where `trans` is the (possibly uninitialized)
temporary described at `broadcastTrans`. -/
noncomputable def applyTransformation (data translation rotation : Mat)
    (junk : ℕ → ℕ → ℝ) : Mat :=
  matMul
    ⟨data.rows, data.cols, fun i j => data.entry i j + broadcastTrans data translation junk i j⟩
    rotation

/-- The `PointType` enumeration of the source. -/
inductive PointType | TWO_D | THREE_D

/-- The `ICPSettings` structure of the source. -/
structure ICPSettings where
  pointType : PointType
  maxIterations : ℕ

/-- State of the `ICP` class.  The C++ members `solvedTransform` and
`solvedRotation` are never used by the source; `lastTransform`,
`lastRotation` and the three scratch point vectors (`refPoints`,
`tarPoints`, `closestPoints`) are overwritten from scratch at the start of
every iteration before being read, so they are modelled by the local
bindings of `solveStep` and `matchClosest` instead of by fields. -/
structure ICP where
  mRef : Mat
  mTarget : Mat
  curRef : Mat
  rotation : Mat
  transform : Mat
  iterations : ℕ

/-- The `ICP` constructor: stores the reference and the target, copies the
reference into the working matrix `curRef`, and takes the iteration budget
from the settings.  `rotation` and `transform` are default-constructed
(empty `0 × 0`) until `solve` initializes them. -/
noncomputable def mkICP (reference target : Mat) (set : ICPSettings) : ICP :=
  { mRef := reference
    mTarget := target
    curRef := reference
    rotation := ⟨0, 0, fun _ _ => 0⟩
    transform := ⟨0, 0, fun _ _ => 0⟩
    iterations := set.maxIterations }

/-- Distance from target point `i` to current-reference point `j` as
computed inside `ICP::match`: the points have `mRef.cols` coordinates, the
target point is row `i` of `mTarget`, the reference point is row `j` of
`curRef`. -/
noncomputable def matchDist (s : ICP) (i j : ℕ) : ℝ :=
  distanceTo (fun c => s.mTarget.entry i c) (fun c => s.curRef.entry j c) s.mRef.cols

/-- The linear-search loop of `ICP::match` for target point `i`: starting
from the sentinel best distance `1000000.0` and a zero-filled best point, it
scans reference points in ascending row index and keeps the pair whenever
the distance is strictly smaller than the best so far. -/
noncomputable def matchBest (s : ICP) (i : ℕ) : ℝ × (ℕ → ℝ) :=
  (List.range s.mRef.rows).foldl
    (fun st j =>
      if matchDist s i j < st.1 then (matchDist s i j, fun c => s.curRef.entry j c) else st)
    ((1000000 : ℝ), fun _ => 0)

/-- Embedding of `ICP::match`: the matrix of best matches, one row per
target point (the loop bounds of the source are `mRef`'s dimensions). -/
noncomputable def matchClosest (s : ICP) : Mat :=
  ⟨s.mRef.rows, s.mRef.cols, fun x y => (matchBest s x).2 y⟩

/-- Embedding of `ICP::rotMatrixToDegrees`: `asin(rot(1,0)) * 180.0 / PI`. -/
noncomputable def rotMatrixToDegrees (rot : Mat) : ℝ :=
  Real.arcsin (rot.entry 1 0) * 180 / PI

/-- Embedding of `ICP::angleToRotMatrix`: a `size × size` matrix allocated
uninitialized (the unknown contents are the `junk` parameter) whose four
entries `(0,0), (0,1), (1,0), (1,1)` are overwritten with the cosine/sine
block of the angle (given in degrees, converted with the source's `PI`). -/
noncomputable def angleToRotMatrix (angle : ℝ) (size : ℕ) (junk : ℕ → ℕ → ℝ) : Mat :=
  ⟨size, size, fun i j =>
    if i = 0 ∧ j = 0 then Real.cos (angle * PI / 180)
    else if i = 0 ∧ j = 1 then -Real.sin (angle * PI / 180)
    else if i = 1 ∧ j = 0 then Real.sin (angle * PI / 180)
    else if i = 1 ∧ j = 1 then Real.cos (angle * PI / 180)
    else junk i j⟩

/-- One round of the `while` loop of `ICP::solve`: match, fit rotation and
translation, compose the rotation by summed angle, overwrite the
translation, apply the transform to the working reference, compute the
diagnostic error (printed by the source, never used), and decrement the
iteration counter.  `junkRot` and `junkApply` model the uninitialized
allocations inside `angleToRotMatrix` and `applyTransformation`. -/
noncomputable def solveStep (svd : Mat → Mat × Mat) (junkRot junkApply : ℕ → ℕ → ℝ)
    (s : ICP) : ICP :=
  let lastRotation := s.rotation
  let closest := matchClosest s
  let newRot := solveForOptimalRotation svd closest s.mTarget
  let newTrans := solveForOptimalTranslation closest s.mTarget newRot
  let lastAngle := rotMatrixToDegrees lastRotation
  let angle := rotMatrixToDegrees newRot
  let newAngle := lastAngle + angle
  let rotation := angleToRotMatrix newAngle (Mat.rows lastRotation) junkRot
  let transform := newTrans
  let newRef := applyTransformation s.curRef transform rotation junkApply
  let _error := RMSE s.mTarget newRef
  { s with curRef := newRef, rotation := rotation, transform := transform,
           iterations := s.iterations - 1 }

/-- The `while (iterations > 0)` loop of `ICP::solve`. -/
noncomputable def solveWhile (svd : Mat → Mat × Mat) (j1 j2 : ℕ → ℕ → ℝ) (s : ICP) : ICP :=
  if _h : 0 < s.iterations then solveWhile svd j1 j2 (solveStep svd j1 j2 s) else s
termination_by s.iterations
decreasing_by
  have hd : (solveStep svd j1 j2 s).iterations = s.iterations - 1 := rfl
  omega

/-- The initialization performed by `ICP::solve` before the loop:
`rotation = Identity(mRef.cols, mRef.cols)` and
`transform = Zero(mRef.cols, 1)`. -/
noncomputable def solveInit (s : ICP) : ICP :=
  { s with rotation := matIdentity s.mRef.cols, transform := matZero s.mRef.cols 1 }

/-- Embedding of `ICP::solve`: initialize the accumulators, then run the
loop until the iteration counter reaches zero. -/
noncomputable def solve (svd : Mat → Mat × Mat) (j1 j2 : ℕ → ℕ → ℝ) (s : ICP) : ICP :=
  solveWhile svd j1 j2 (solveInit s)

/-- Accessor `ICP::getBestTranslation`. -/
noncomputable def getBestTranslation (s : ICP) : Mat := s.transform

/-- Accessor `ICP::getBestRotation`. -/
noncomputable def getBestRotation (s : ICP) : Mat := s.rotation

/-- An `ICP` instance whose single reference point is at distance 2000000
(beyond the sentinel) from the single target point. -/
noncomputable def farICP : ICP :=
  mkICP ⟨1, 1, fun _ _ => 2000000⟩ ⟨1, 1, fun _ _ => 0⟩ ⟨PointType.TWO_D, 5⟩

/-- An `ICP` instance whose single reference point is at distance 1 (inside
the sentinel) from the single target point. -/
noncomputable def nearICP : ICP :=
  mkICP ⟨1, 1, fun _ _ => 1⟩ ⟨1, 1, fun _ _ => 0⟩ ⟨PointType.TWO_D, 5⟩

/-- A concrete SVD oracle for witnesses: it always returns the pair of
`1 × 1` identity factors. -/
noncomputable def svdOne : Mat → Mat × Mat :=
  fun _ => (⟨1, 1, fun _ _ => 1⟩, ⟨1, 1, fun _ _ => 1⟩)

/-- A concrete `1 × 1` zero matrix used as reference and target in
witnesses. -/
noncomputable def wRef : Mat := ⟨1, 1, fun _ _ => 0⟩

/-- The decrement performed at the end of every loop round. -/
theorem solveStep_iterations (svd : Mat → Mat × Mat) (j1 j2 : ℕ → ℕ → ℝ) (s : ICP) :
    (solveStep svd j1 j2 s).iterations = s.iterations - 1 := rfl

/-- Helper: the best-candidate fold never moves off its initial state when no
candidate beats the initial bound. -/
theorem bestFoldl_no_update {α : Type} (d : ℕ → ℝ) (P : ℕ → α) (B : ℝ) (p0 : α) :
    ∀ m : ℕ, (∀ j, j < m → ¬ d j < B) →
      (List.range m).foldl (fun st k => if d k < st.1 then (d k, P k) else st) (B, p0)
        = (B, p0) := by
  intro m
  induction m with
  | zero => intro _; rfl
  | succ m ih =>
    intro h
    rw [List.range_succ, List.foldl_append, ih (fun j hj => h j (by omega))]
    simp [h m (by omega)]

/-- Helper: when some candidate beats the initial bound, the best-candidate
fold returns the first-encountered minimizer. -/
theorem bestFoldl_min {α : Type} (d : ℕ → ℝ) (P : ℕ → α) (B : ℝ) (p0 : α) :
    ∀ m : ℕ, (∃ j, j < m ∧ d j < B) →
      ∃ j, j < m ∧
        (List.range m).foldl (fun st k => if d k < st.1 then (d k, P k) else st) (B, p0)
          = (d j, P j) ∧
        d j < B ∧ (∀ k, k < m → d j ≤ d k) ∧ (∀ k, k < j → d j < d k) := by
  intro m
  induction m with
  | zero => rintro ⟨j, hj, -⟩; omega
  | succ m ih =>
    rintro ⟨j0, hj0, hd0⟩
    by_cases hex : ∃ j, j < m ∧ d j < B
    · obtain ⟨j, hj, hfold, hjB, hmin, hfirst⟩ := ih hex
      rw [List.range_succ, List.foldl_append, hfold]
      by_cases hm : d m < d j
      · refine ⟨m, by omega, by simp [hm], by linarith, ?_, ?_⟩
        · intro k hk
          rcases Nat.lt_succ_iff_lt_or_eq.mp hk with hk' | hk'
          · have := hmin k hk'
            linarith
          · subst hk'; exact le_refl _
        · intro k hk
          exact lt_of_lt_of_le hm (hmin k hk)
      · refine ⟨j, by omega, by simp [hm], hjB, ?_, hfirst⟩
        intro k hk
        rcases Nat.lt_succ_iff_lt_or_eq.mp hk with hk' | hk'
        · exact hmin k hk'
        · subst hk'; linarith
    · have hge : ∀ k, k < m → B ≤ d k := by
        intro k hk
        by_contra hcon
        exact hex ⟨k, hk, by linarith⟩
      have hj0m : j0 = m := by
        rcases Nat.lt_succ_iff_lt_or_eq.mp hj0 with h' | h'
        · exact absurd ⟨j0, h', hd0⟩ hex
        · exact h'
      subst hj0m
      rw [List.range_succ, List.foldl_append,
        bestFoldl_no_update d P B p0 _ (fun j hj hd => hex ⟨j, hj, hd⟩)]
      refine ⟨j0, by omega, by simp [hd0], hd0, ?_, ?_⟩
      · intro k hk
        rcases Nat.lt_succ_iff_lt_or_eq.mp hk with hk' | hk'
        · have := hge k hk'
          linarith
        · subst hk'; exact le_refl _
      · intro k hk
        have := hge k hk
        linarith

/-- Helper: folding addition over a mapped range is the finite sum. -/
theorem foldl_add_map_range (f : ℕ → ℝ) :
    ∀ n : ℕ, ((List.range n).map f).foldl (· + ·) 0 = ∑ i in Finset.range n, f i := by
  intro n
  induction n with
  | zero => rfl
  | succ n ih =>
    rw [List.range_succ, List.map_append, List.foldl_append, ih]
    simp [Finset.sum_range_succ]

/-- Helper: the loop of `solve` applies the loop body exactly as many times
as the value of the iteration counter on entry. -/
theorem solveWhile_eq_iterate (svd : Mat → Mat × Mat) (j1 j2 : ℕ → ℕ → ℝ) :
    ∀ (n : ℕ) (s : ICP), s.iterations = n →
      solveWhile svd j1 j2 s = (solveStep svd j1 j2)^[n] s := by
  intro n
  induction n with
  | zero =>
    intro s hs
    rw [solveWhile]
    simp [hs]
  | succ n ih =>
    intro s hs
    rw [solveWhile, dif_pos (by omega : 0 < s.iterations),
      ih (solveStep svd j1 j2 s) (by rw [solveStep_iterations, hs]; omega),
      Function.iterate_succ_apply]

/-- Helper: the loop body never writes the stored reference or target. -/
theorem iterate_solveStep_frame (svd : Mat → Mat × Mat) (j1 j2 : ℕ → ℕ → ℝ) :
    ∀ (n : ℕ) (s : ICP),
      ((solveStep svd j1 j2)^[n] s).mRef = s.mRef ∧
      ((solveStep svd j1 j2)^[n] s).mTarget = s.mTarget := by
  intro n
  induction n with
  | zero => intro s; exact ⟨rfl, rfl⟩
  | succ n ih =>
    intro s
    rw [Function.iterate_succ_apply]
    exact ⟨(ih (solveStep svd j1 j2 s)).1, (ih (solveStep svd j1 j2 s)).2⟩

/-- Helper: when no reference point beats the sentinel distance, the linear
search of `match` keeps the sentinel and the zero-filled point. -/
theorem matchBest_no_candidate (s : ICP) (i : ℕ)
    (h : ∀ j, j < s.mRef.rows → ¬ matchDist s i j < 1000000) :
    matchBest s i = (1000000, fun _ => 0) := by
  rw [matchBest]
  exact bestFoldl_no_update (matchDist s i) (fun j c => s.curRef.entry j c)
    1000000 (fun _ => 0) s.mRef.rows h

/-- Helper: in `farICP`, no reference point is within the sentinel distance
of target point 0. -/
theorem farICP_no_candidate :
    ∀ j, j < farICP.mRef.rows → ¬ matchDist farICP 0 j < 1000000 := by
  intro j hj
  have hrows : farICP.mRef.rows = 1 := rfl
  have hj0 : j = 0 := by omega
  subst hj0
  have hd : matchDist farICP 0 0 = Real.sqrt 4000000000000 := by
    rw [matchDist, distanceTo]
    norm_num [farICP, mkICP, Finset.sum_range_one]
  rw [hd, show (4000000000000 : ℝ) = 2000000 ^ 2 by norm_num,
    Real.sqrt_sq (by norm_num : (0 : ℝ) ≤ 2000000)]
  norm_num

/-- C1 counterexample: in `farICP` the unique (hence nearest) reference
point has coordinate 2000000, yet row 0 of the matrix returned by `match`
is 0, because the search initializes its best distance to the sentinel
1000000.0 — so the claim as stated (row i always equals the nearest
reference point) is false. -/
theorem match_nearest_claim_false :
    (matchClosest farICP).entry 0 0 = 0 ∧ farICP.curRef.entry 0 0 = 2000000 ∧
      ((0 : ℝ) ≠ 2000000) := by
  refine ⟨?_, rfl, by norm_num⟩
  show (matchBest farICP 0).2 0 = 0
  rw [matchBest_no_candidate farICP 0 farICP_no_candidate]

/-- C1 (amended): provided some current-reference point lies at Euclidean
distance strictly below the sentinel 1000000.0 from target point `i`, row
`i` of the matrix returned by `match` equals the current-reference point at
minimal distance, ties broken by the first-encountered minimum in ascending
reference-row index; the returned matrix has the same shape as the target
(the loop bounds are `mRef`'s dimensions, which the constructor invariant
makes equal to the target's). -/
theorem match_nearest_amended (s : ICP) (i : ℕ) (_hi : i < s.mTarget.rows)
    (hr : s.mRef.rows = s.mTarget.rows) (hc : s.mRef.cols = s.mTarget.cols)
    (hnear : ∃ j, j < s.mRef.rows ∧ matchDist s i j < 1000000) :
    ((matchClosest s).rows = s.mTarget.rows ∧ (matchClosest s).cols = s.mTarget.cols) ∧
      ∃ j, j < s.mRef.rows ∧
        (∀ c, (matchClosest s).entry i c = s.curRef.entry j c) ∧
        (∀ k, k < s.mRef.rows → matchDist s i j ≤ matchDist s i k) ∧
        (∀ k, k < j → matchDist s i j < matchDist s i k) := by
  refine ⟨⟨hr, hc⟩, ?_⟩
  obtain ⟨j, hj, hfold, -, hmin, hfirst⟩ :=
    bestFoldl_min (matchDist s i) (fun j c => s.curRef.entry j c)
      1000000 (fun _ => 0) s.mRef.rows hnear
  have hbest : matchBest s i = (matchDist s i j, fun c => s.curRef.entry j c) := by
    rw [matchBest]
    exact hfold
  refine ⟨j, hj, ?_, hmin, hfirst⟩
  intro c
  show (matchBest s i).2 c = s.curRef.entry j c
  rw [hbest]

/-- Helper: in `nearICP`, reference point 0 is within the sentinel distance
of target point 0. -/
theorem nearICP_candidate : matchDist nearICP 0 0 < 1000000 := by
  have hd : matchDist nearICP 0 0 = Real.sqrt 1 := by
    rw [matchDist, distanceTo]
    norm_num [nearICP, mkICP, Finset.sum_range_one]
  rw [hd, Real.sqrt_one]
  norm_num

/-- Witness for the amended C1 at the concrete instance `nearICP`. -/
theorem match_nearest_amended_witness :
    (0 < nearICP.mTarget.rows ∧ nearICP.mRef.rows = nearICP.mTarget.rows ∧
        nearICP.mRef.cols = nearICP.mTarget.cols ∧
        ∃ j, j < nearICP.mRef.rows ∧ matchDist nearICP 0 j < 1000000) ∧
      (((matchClosest nearICP).rows = nearICP.mTarget.rows ∧
          (matchClosest nearICP).cols = nearICP.mTarget.cols) ∧
        ∃ j, j < nearICP.mRef.rows ∧
          (∀ c, (matchClosest nearICP).entry 0 c = nearICP.curRef.entry j c) ∧
          (∀ k, k < nearICP.mRef.rows → matchDist nearICP 0 j ≤ matchDist nearICP 0 k) ∧
          (∀ k, k < j → matchDist nearICP 0 j < matchDist nearICP 0 k)) :=
  ⟨⟨Nat.one_pos, rfl, rfl, ⟨0, Nat.one_pos, nearICP_candidate⟩⟩,
    match_nearest_amended nearICP 0 Nat.one_pos rfl rfl ⟨0, Nat.one_pos, nearICP_candidate⟩⟩

/-- C10: for a target point whose distance to every current-reference point
is at least the sentinel 1000000.0, the corresponding row of the matrix
returned by `match` is the all-zeros point (the zero-filled initial best
candidate), not a reference point. -/
theorem match_sentinel_zero_row (s : ICP) (i : ℕ)
    (h : ∀ j, j < s.mRef.rows → ¬ matchDist s i j < 1000000) :
    ∀ c, (matchClosest s).entry i c = 0 := by
  intro c
  show (matchBest s i).2 c = 0
  rw [matchBest_no_candidate s i h]

/-- Witness for C10 at the concrete instance `farICP`. -/
theorem match_sentinel_zero_row_witness :
    (∀ j, j < farICP.mRef.rows → ¬ matchDist farICP 0 j < 1000000) ∧
      ∀ c, (matchClosest farICP).entry 0 c = 0 :=
  ⟨farICP_no_candidate, match_sentinel_zero_row farICP 0 farICP_no_candidate⟩

/-- C5: for matrices of identical shape, `RMSE` is the sum over rows of the
square root of the sum of the squared entries of the corresponding row of
the difference — the sum of per-row Euclidean residual norms. -/
theorem RMSE_eq_sum_row_norms (a b : Mat) (hr : a.rows = b.rows) (hc : a.cols = b.cols) :
    RMSE a b = ∑ r in Finset.range a.rows,
      Real.sqrt (∑ c in Finset.range a.cols, (a.entry r c - b.entry r c) ^ 2) := by
  rw [RMSE, if_neg (by rw [hr, hc]; exact fun h => h rfl),
    List.map_map, foldl_add_map_range]
  refine Finset.sum_congr rfl fun r _ => ?_
  simp [Function.comp, pow_two]

/-- Witness for C5 at a concrete pair of `1 × 2` matrices. -/
theorem RMSE_eq_sum_row_norms_witness :
    RMSE ⟨1, 2, fun _ _ => 3⟩ ⟨1, 2, fun _ _ => 1⟩
      = ∑ r in Finset.range 1,
          Real.sqrt (∑ c in Finset.range 2,
            ((Mat.entry ⟨1, 2, fun _ _ => 3⟩ r c - Mat.entry ⟨1, 2, fun _ _ => 1⟩ r c) ^ 2)) :=
  RMSE_eq_sum_row_norms ⟨1, 2, fun _ _ => 3⟩ ⟨1, 2, fun _ _ => 1⟩ rfl rfl

/-- C6: when the total element counts of the two operands differ, `RMSE`
returns exactly `0.0`. -/
theorem RMSE_size_mismatch_zero (a b : Mat)
    (h : a.rows * a.cols ≠ b.rows * b.cols) : RMSE a b = 0 := by
  rw [RMSE, if_pos h]

/-- Witness for C6 at a `1 × 1` versus `1 × 2` pair. -/
theorem RMSE_size_mismatch_zero_witness :
    (Mat.rows (⟨1, 1, fun _ _ => 0⟩ : Mat) * Mat.cols (⟨1, 1, fun _ _ => 0⟩ : Mat)
        ≠ Mat.rows (⟨1, 2, fun _ _ => 0⟩ : Mat) * Mat.cols (⟨1, 2, fun _ _ => 0⟩ : Mat)) ∧
      RMSE ⟨1, 1, fun _ _ => 0⟩ ⟨1, 2, fun _ _ => 0⟩ = 0 :=
  ⟨by decide, RMSE_size_mismatch_zero ⟨1, 1, fun _ _ => 0⟩ ⟨1, 2, fun _ _ => 0⟩ (by decide)⟩

/-- Helper: the four written entries of the matrix `angleToRotMatrix`
builds. -/
theorem angleToRotMatrix_entries (angle : ℝ) (size : ℕ) (junk : ℕ → ℕ → ℝ) :
    (angleToRotMatrix angle size junk).entry 0 0 = Real.cos (angle * PI / 180) ∧
      (angleToRotMatrix angle size junk).entry 0 1 = -Real.sin (angle * PI / 180) ∧
      (angleToRotMatrix angle size junk).entry 1 0 = Real.sin (angle * PI / 180) ∧
      (angleToRotMatrix angle size junk).entry 1 1 = Real.cos (angle * PI / 180) := by
  refine ⟨?_, ?_, ?_, ?_⟩ <;> norm_num [angleToRotMatrix]

/-- C3: each round of `solve` composes the accumulated rotation by angle,
not by matrix product: the degree angles extracted by `rotMatrixToDegrees`
(which is `asin(rot(1,0)) * 180 / PI`) from the previous accumulated
rotation and from the newly solved rotation are summed, and the new
accumulated rotation is the `size × size` matrix built by
`angleToRotMatrix` from the summed angle, whose entries `(0,0), (0,1),
(1,0), (1,1)` are the cosine/sine block of that angle. -/
theorem solveStep_angle_composition (svd : Mat → Mat × Mat) (j1 j2 : ℕ → ℕ → ℝ) (s : ICP) :
    (solveStep svd j1 j2 s).rotation
        = angleToRotMatrix
            (rotMatrixToDegrees s.rotation +
              rotMatrixToDegrees (solveForOptimalRotation svd (matchClosest s) s.mTarget))
            s.rotation.rows j1 ∧
      rotMatrixToDegrees s.rotation = Real.arcsin (s.rotation.entry 1 0) * 180 / PI ∧
      ((solveStep svd j1 j2 s).rotation.rows = s.rotation.rows ∧
        (solveStep svd j1 j2 s).rotation.cols = s.rotation.rows) ∧
      (solveStep svd j1 j2 s).rotation.entry 0 0
          = Real.cos ((rotMatrixToDegrees s.rotation +
              rotMatrixToDegrees (solveForOptimalRotation svd (matchClosest s) s.mTarget))
            * PI / 180) ∧
      (solveStep svd j1 j2 s).rotation.entry 0 1
          = -Real.sin ((rotMatrixToDegrees s.rotation +
              rotMatrixToDegrees (solveForOptimalRotation svd (matchClosest s) s.mTarget))
            * PI / 180) ∧
      (solveStep svd j1 j2 s).rotation.entry 1 0
          = Real.sin ((rotMatrixToDegrees s.rotation +
              rotMatrixToDegrees (solveForOptimalRotation svd (matchClosest s) s.mTarget))
            * PI / 180) ∧
      (solveStep svd j1 j2 s).rotation.entry 1 1
          = Real.cos ((rotMatrixToDegrees s.rotation +
              rotMatrixToDegrees (solveForOptimalRotation svd (matchClosest s) s.mTarget))
            * PI / 180) := by
  obtain ⟨h00, h01, h10, h11⟩ :=
    angleToRotMatrix_entries
      (rotMatrixToDegrees s.rotation +
        rotMatrixToDegrees (solveForOptimalRotation svd (matchClosest s) s.mTarget))
      s.rotation.rows j1
  exact ⟨rfl, rfl, ⟨rfl, rfl⟩, h00, h01, h10, h11⟩

/-- C4 (code bug): when `translation` already has `data`'s shape, the source
never fills its temporary `trans` (the broadcast branch is skipped and no
other branch assigns it), so the function adds uninitialized memory instead
of the translation.  At a `1 × 1` input with translation value `5`, rotation
`1`, and uninitialized contents modelled as `1`, the code yields `1`, while
the claimed result `(data + translation) * rotation` is `5`. -/
theorem applyTransformation_matching_shape_bug :
    (applyTransformation ⟨1, 1, fun _ _ => 0⟩ ⟨1, 1, fun _ _ => 5⟩ ⟨1, 1, fun _ _ => 1⟩
        (fun _ _ => 1)).entry 0 0 = 1 ∧
      (matMul (matAdd ⟨1, 1, fun _ _ => 0⟩ ⟨1, 1, fun _ _ => 5⟩)
        ⟨1, 1, fun _ _ => 1⟩).entry 0 0 = 5 ∧
      ((1 : ℝ) ≠ 5) := by
  refine ⟨?_, ?_, by norm_num⟩
  · norm_num [applyTransformation, matMul, broadcastTrans, Finset.sum_range_one]
  · norm_num [matMul, matAdd, Finset.sum_range_one]

/-- C7 counterexample: for a one-row data matrix, the row-vector translation
has exactly `data`'s shape, so the code adds the uninitialized temporary
instead of broadcasting, and the two calls disagree: with data `[[0, 0]]`,
translation values all `1`, identity rotation and uninitialized contents
modelled as `0`, the column-vector call yields entry `1` and the row-vector
call yields entry `0`. -/
theorem applyTransformation_broadcast_claim_false :
    (applyTransformation ⟨1, 2, fun _ _ => 0⟩ ⟨2, 1, fun _ _ => 1⟩ (matIdentity 2)
        (fun _ _ => 0)).entry 0 0 ≠
      (applyTransformation ⟨1, 2, fun _ _ => 0⟩ ⟨1, 2, fun _ _ => 1⟩ (matIdentity 2)
        (fun _ _ => 0)).entry 0 0 := by
  have hcol :
      (applyTransformation ⟨1, 2, fun _ _ => 0⟩ ⟨2, 1, fun _ _ => 1⟩ (matIdentity 2)
        (fun _ _ => 0)).entry 0 0 = 1 := by
    norm_num [applyTransformation, matMul, broadcastTrans, matIdentity,
      Finset.sum_range_succ, Finset.sum_range_one]
  have hrow :
      (applyTransformation ⟨1, 2, fun _ _ => 0⟩ ⟨1, 2, fun _ _ => 1⟩ (matIdentity 2)
        (fun _ _ => 0)).entry 0 0 = 0 := by
    norm_num [applyTransformation, matMul, broadcastTrans, matIdentity,
      Finset.sum_range_succ, Finset.sum_range_one]
  rw [hcol, hrow]
  norm_num

/-- C7 (amended): for a data matrix with at least two rows (so that neither
translation shape coincides with `data`'s shape and the uninitialized-`trans`
branch cannot be taken), a column-vector translation of shape `(cols, 1)`
and a row-vector translation of shape `(1, cols)` holding the same values
yield the same result. -/
theorem applyTransformation_broadcast_equiv (data rotation tc tr : Mat)
    (junk1 junk2 : ℕ → ℕ → ℝ) (h2 : 2 ≤ data.rows)
    (hcr : tc.rows = data.cols) (hcc : tc.cols = 1)
    (hrr : tr.rows = 1) (hrc : tr.cols = data.cols)
    (hv : ∀ i, i < data.cols → tc.entry i 0 = tr.entry 0 i) :
    (applyTransformation data tc rotation junk1).rows
        = (applyTransformation data tr rotation junk2).rows ∧
      (applyTransformation data tc rotation junk1).cols
        = (applyTransformation data tr rotation junk2).cols ∧
      ∀ i j, (applyTransformation data tc rotation junk1).entry i j
        = (applyTransformation data tr rotation junk2).entry i j := by
  have hC1 : tc.rows ≠ data.rows ∨ tc.cols ≠ data.cols := by
    by_cases h1 : data.cols = 1
    · left; rw [hcr, h1]; omega
    · right; rw [hcc]; omega
  have hC2 : tr.rows ≠ data.rows ∨ tr.cols ≠ data.cols := by
    left; rw [hrr]; omega
  have hbc : ∀ i k, k < data.cols →
      broadcastTrans data tc junk1 i k = broadcastTrans data tr junk2 i k := by
    intro i k hk
    rw [broadcastTrans, broadcastTrans, if_pos hC1, if_pos hC2, if_pos hcc]
    by_cases h1 : tr.cols = 1
    · rw [if_pos h1]
      have hk0 : k = 0 := by rw [hrc] at h1; omega
      subst hk0
      exact hv 0 (by omega)
    · rw [if_neg h1, if_pos hrr]
      exact hv k hk
  refine ⟨rfl, rfl, fun i j => ?_⟩
  show (∑ k in Finset.range data.cols,
      (data.entry i k + broadcastTrans data tc junk1 i k) * rotation.entry k j)
    = ∑ k in Finset.range data.cols,
      (data.entry i k + broadcastTrans data tr junk2 i k) * rotation.entry k j
  refine Finset.sum_congr rfl fun k hk => ?_
  rw [hbc i k (Finset.mem_range.mp hk)]

/-- Witness for the amended C7 at a concrete `2 × 2` data matrix. -/
theorem applyTransformation_broadcast_equiv_witness :
    (2 ≤ Mat.rows (⟨2, 2, fun _ _ => 0⟩ : Mat)) ∧
      ((applyTransformation ⟨2, 2, fun _ _ => 0⟩ ⟨2, 1, fun _ _ => 3⟩ (matIdentity 2)
            (fun _ _ => 7)).rows
          = (applyTransformation ⟨2, 2, fun _ _ => 0⟩ ⟨1, 2, fun _ _ => 3⟩ (matIdentity 2)
            (fun _ _ => 9)).rows ∧
        (applyTransformation ⟨2, 2, fun _ _ => 0⟩ ⟨2, 1, fun _ _ => 3⟩ (matIdentity 2)
            (fun _ _ => 7)).cols
          = (applyTransformation ⟨2, 2, fun _ _ => 0⟩ ⟨1, 2, fun _ _ => 3⟩ (matIdentity 2)
            (fun _ _ => 9)).cols ∧
        ∀ i j,
          (applyTransformation ⟨2, 2, fun _ _ => 0⟩ ⟨2, 1, fun _ _ => 3⟩ (matIdentity 2)
            (fun _ _ => 7)).entry i j
          = (applyTransformation ⟨2, 2, fun _ _ => 0⟩ ⟨1, 2, fun _ _ => 3⟩ (matIdentity 2)
            (fun _ _ => 9)).entry i j) :=
  ⟨by decide,
    applyTransformation_broadcast_equiv ⟨2, 2, fun _ _ => 0⟩ (matIdentity 2)
      ⟨2, 1, fun _ _ => 3⟩ ⟨1, 2, fun _ _ => 3⟩ (fun _ _ => 7) (fun _ _ => 9)
      (by decide) rfl rfl rfl rfl (fun i _ => rfl)⟩

/-- C8: for an `ICP` built by the constructor, `solve` applies the loop body
exactly `maxIterations` times (the loop has no other exit: the equation
holds for every input state, in particular whatever the per-round `RMSE`
diagnostic evaluates to), and each round decrements the iteration counter
exactly once. -/
theorem solve_iteration_count (svd : Mat → Mat × Mat) (j1 j2 : ℕ → ℕ → ℝ)
    (reference target : Mat) (set : ICPSettings) :
    solve svd j1 j2 (mkICP reference target set)
        = (solveStep svd j1 j2)^[set.maxIterations] (solveInit (mkICP reference target set)) ∧
      ∀ s : ICP, (solveStep svd j1 j2 s).iterations = s.iterations - 1 := by
  refine ⟨?_, fun s => rfl⟩
  rw [solve]
  exact solveWhile_eq_iterate svd j1 j2 set.maxIterations _ rfl

/-- C9 counterexample: with one iteration, `solve` changes the stored
iteration counter (from `1` to `0`), so the claim that only the working
copy, the rotation and the translation change is false as stated. -/
theorem solve_changes_iteration_counter :
    (solve (fun m => (m, m)) (fun _ _ => 0) (fun _ _ => 0)
        (mkICP ⟨1, 1, fun _ _ => 0⟩ ⟨1, 1, fun _ _ => 0⟩ ⟨PointType.TWO_D, 1⟩)).iterations ≠
      (mkICP ⟨1, 1, fun _ _ => 0⟩ ⟨1, 1, fun _ _ => 0⟩ ⟨PointType.TWO_D, 1⟩).iterations := by
  rw [solve, solveWhile_eq_iterate _ _ _ 1 _ rfl, Function.iterate_one, solveStep_iterations]
  decide

/-- C9 (amended): `solve` never modifies the stored reference matrix `mRef`
or the stored target matrix `mTarget`; after it returns they still equal the
matrices passed to the constructor (the working copy, the accumulated
rotation and translation, and the iteration counter are what changes). -/
theorem solve_preserves_reference_and_target (svd : Mat → Mat × Mat) (j1 j2 : ℕ → ℕ → ℝ)
    (reference target : Mat) (set : ICPSettings) :
    (solve svd j1 j2 (mkICP reference target set)).mRef = reference ∧
      (solve svd j1 j2 (mkICP reference target set)).mTarget = target := by
  rw [solve, solveWhile_eq_iterate svd j1 j2 set.maxIterations _ rfl]
  exact iterate_solveStep_frame svd j1 j2 set.maxIterations _

/-- Helper: a matrix with orthonormal columns has determinant `1` or `-1`. -/
theorem orth_det_pm_one {n : ℕ} (A : Matrix (Fin n) (Fin n) ℝ) (h : Aᵀ * A = 1) :
    A.det = 1 ∨ A.det = -1 := by
  have h2 : A.det * A.det = 1 := by
    have hd := congrArg Matrix.det h
    rwa [Matrix.det_mul, Matrix.det_transpose, Matrix.det_one] at hd
  exact mul_self_eq_one_iff.mp h2

/-- Helper: the product `V * Uᵀ` of two matrices with orthonormal columns
again has orthonormal columns. -/
theorem orth_prod {n : ℕ} (U V : Matrix (Fin n) (Fin n) ℝ)
    (hU : Uᵀ * U = 1) (hV : Vᵀ * V = 1) : (V * Uᵀ)ᵀ * (V * Uᵀ) = 1 := by
  have hUU : U * Uᵀ = 1 := Matrix.mul_eq_one_comm.mp hU
  calc (V * Uᵀ)ᵀ * (V * Uᵀ)
      = U * Vᵀ * (V * Uᵀ) := by rw [Matrix.transpose_mul, Matrix.transpose_transpose]
    _ = U * (Vᵀ * V * Uᵀ) := by rw [mul_assoc, mul_assoc]
    _ = U * Uᵀ := by rw [hV, one_mul]
    _ = 1 := hUU

/-- Helper: negating the last row of a square matrix with orthonormal
columns preserves orthonormality of the columns and flips the sign of the
determinant. -/
theorem negLastRow_orth {n : ℕ} (hn : 0 < n) (M : Mat) (hr : M.rows = n)
    (horth : (toFin n M)ᵀ * toFin n M = 1) :
    (toFin n (negLastRow M))ᵀ * toFin n (negLastRow M) = 1 ∧
      (toFin n (negLastRow M)).det = -(toFin n M).det := by
  set D : Matrix (Fin n) (Fin n) ℝ :=
    Matrix.diagonal (fun i => if (i : ℕ) = n - 1 then (-1 : ℝ) else 1) with hD
  have hDM : toFin n (negLastRow M) = D * toFin n M := by
    ext i j
    by_cases hi : (i : ℕ) = n - 1
    · simp [toFin, negLastRow, hr, hi, hD, Matrix.diagonal_mul]
    · simp [toFin, negLastRow, hr, hi, hD, Matrix.diagonal_mul]
  have hDD : D * D = 1 := by
    rw [hD, Matrix.diagonal_mul_diagonal]
    have hone : (fun i : Fin n =>
        (if (i : ℕ) = n - 1 then (-1 : ℝ) else 1) * (if (i : ℕ) = n - 1 then (-1 : ℝ) else 1))
          = fun _ => (1 : ℝ) := by
      funext i
      by_cases hi : (i : ℕ) = n - 1 <;> simp [hi]
    calc Matrix.diagonal ((fun i : Fin n => if (i : ℕ) = n - 1 then (-1 : ℝ) else 1) *
          fun i : Fin n => if (i : ℕ) = n - 1 then (-1 : ℝ) else 1)
        = Matrix.diagonal (fun _ : Fin n => (1 : ℝ)) := by
          rw [show ((fun i : Fin n => if (i : ℕ) = n - 1 then (-1 : ℝ) else 1) *
              fun i : Fin n => if (i : ℕ) = n - 1 then (-1 : ℝ) else 1)
            = fun i : Fin n =>
              (if (i : ℕ) = n - 1 then (-1 : ℝ) else 1) *
                (if (i : ℕ) = n - 1 then (-1 : ℝ) else 1) from rfl, hone]
      _ = 1 := Matrix.diagonal_one
  have hDT : Dᵀ = D := by rw [hD, Matrix.diagonal_transpose]
  have hdetD : D.det = -1 := by
    rw [hD, Matrix.det_diagonal]
    have hcond : ∀ i : Fin n, (if (i : ℕ) = n - 1 then (-1 : ℝ) else 1)
        = (if i = (⟨n - 1, by omega⟩ : Fin n) then (-1 : ℝ) else 1) := by
      intro i
      by_cases hi : (i : ℕ) = n - 1
      · rw [if_pos hi, if_pos (Fin.ext_iff.mpr hi)]
      · rw [if_neg hi, if_neg (fun hcon => hi (by rw [hcon]))]
    rw [Finset.prod_congr rfl fun i _ => hcond i]
    simp
  constructor
  · rw [hDM, Matrix.transpose_mul, hDT, mul_assoc, ← mul_assoc D D, hDD, one_mul, horth]
  · rw [hDM, Matrix.det_mul, hdetD]
    ring

/-- C2: assuming the external SVD returns square factors `U`, `V` of the
same size with orthonormal columns, `solveForOptimalRotation` returns a
matrix of that size with determinant `+1` and orthonormal columns and rows,
and when `det(V * Uᵀ) < 0` it is exactly `V * Uᵀ` with its last row
negated. -/
theorem solveForOptimalRotation_proper (svd : Mat → Mat × Mat) (ref target : Mat) (n : ℕ)
    (hUr : (svd (covOf ref target)).1.rows = n)
    (hUc : (svd (covOf ref target)).1.cols = n)
    (hVr : (svd (covOf ref target)).2.rows = n)
    (hVc : (svd (covOf ref target)).2.cols = n)
    (hU : (toFin n (svd (covOf ref target)).1)ᵀ * toFin n (svd (covOf ref target)).1 = 1)
    (hV : (toFin n (svd (covOf ref target)).2)ᵀ * toFin n (svd (covOf ref target)).2 = 1) :
    Mat.det (solveForOptimalRotation svd ref target) = 1 ∧
      (toFin n (solveForOptimalRotation svd ref target))ᵀ
          * toFin n (solveForOptimalRotation svd ref target) = 1 ∧
      toFin n (solveForOptimalRotation svd ref target)
          * (toFin n (solveForOptimalRotation svd ref target))ᵀ = 1 ∧
      ((solveForOptimalRotation svd ref target).rows = n ∧
        (solveForOptimalRotation svd ref target).cols = n) ∧
      (Mat.det (kabschR0 svd ref target) < 0 →
        ∀ j, (solveForOptimalRotation svd ref target).entry (n - 1) j
          = -((kabschR0 svd ref target).entry (n - 1) j)) := by
  subst hVr
  set U := (svd (covOf ref target)).1 with hUdef
  set V := (svd (covOf ref target)).2 with hVdef
  have hprod : toFin V.rows (kabschR0 svd ref target)
      = toFin V.rows V * (toFin V.rows U)ᵀ := by
    ext i j
    have hL : toFin V.rows (kabschR0 svd ref target) i j
        = ∑ k in Finset.range V.cols, V.entry i.val k * U.entry j.val k := rfl
    rw [hL, hVc, ← Fin.sum_univ_eq_sum_range]
    simp [toFin, Matrix.mul_apply, Matrix.transpose_apply]
  have horthR0 : (toFin V.rows (kabschR0 svd ref target))ᵀ
      * toFin V.rows (kabschR0 svd ref target) = 1 := by
    rw [hprod]
    exact orth_prod (toFin V.rows U) (toFin V.rows V) hU hV
  have hdetR0 : (toFin V.rows (kabschR0 svd ref target)).det = 1 ∨
      (toFin V.rows (kabschR0 svd ref target)).det = -1 :=
    orth_det_pm_one _ horthR0
  have hdet_eq : Mat.det (kabschR0 svd ref target)
      = (toFin V.rows (kabschR0 svd ref target)).det := rfl
  by_cases hdet : Mat.det (kabschR0 svd ref target) < 0
  · have hn : 0 < V.rows := by
      by_contra hcon
      have h0 : V.rows = 0 := by omega
      haveI : IsEmpty (Fin V.rows) := by rw [h0]; infer_instance
      have hone : (toFin V.rows (kabschR0 svd ref target)).det = 1 := Matrix.det_isEmpty
      rw [hdet_eq, hone] at hdet
      linarith
    have hdetneg : (toFin V.rows (kabschR0 svd ref target)).det = -1 := by
      rcases hdetR0 with hone | hneg
      · rw [hdet_eq, hone] at hdet; linarith
      · exact hneg
    obtain ⟨horthN, hdetN⟩ :=
      negLastRow_orth hn (kabschR0 svd ref target) rfl horthR0
    have hsolve : solveForOptimalRotation svd ref target
        = negLastRow (kabschR0 svd ref target) := by
      rw [solveForOptimalRotation, if_pos hdet]
    refine ⟨?_, ?_, ?_, ⟨?_, ?_⟩, ?_⟩
    · rw [hsolve]
      show (toFin V.rows (negLastRow (kabschR0 svd ref target))).det = 1
      rw [hdetN, hdetneg]
      ring
    · rw [hsolve]; exact horthN
    · rw [hsolve]; exact Matrix.mul_eq_one_comm.mp horthN
    · rw [hsolve]; rfl
    · rw [hsolve]; exact hUr
    · intro _ j
      rw [hsolve]
      show (if V.rows - 1 = V.rows - 1 then -((kabschR0 svd ref target).entry (V.rows - 1) j)
        else (kabschR0 svd ref target).entry (V.rows - 1) j)
          = -((kabschR0 svd ref target).entry (V.rows - 1) j)
      rw [if_pos rfl]
  · have hsolve : solveForOptimalRotation svd ref target = kabschR0 svd ref target := by
      rw [solveForOptimalRotation, if_neg hdet]
    refine ⟨?_, ?_, ?_, ⟨?_, ?_⟩, ?_⟩
    · rw [hsolve]
      show (toFin V.rows (kabschR0 svd ref target)).det = 1
      rcases hdetR0 with hone | hneg
      · exact hone
      · rw [hdet_eq, hneg] at hdet
        exact absurd (by norm_num : (-1 : ℝ) < 0) hdet
    · rw [hsolve]; exact horthR0
    · rw [hsolve]; exact Matrix.mul_eq_one_comm.mp horthR0
    · rw [hsolve]; rfl
    · rw [hsolve]; exact hUr
    · intro hcon
      exact absurd hcon hdet

/-- Helper: the `U` factor returned by `svdOne` has orthonormal columns. -/
theorem svdOne_orthU :
    (toFin 1 (svdOne (covOf wRef wRef)).1)ᵀ * toFin 1 (svdOne (covOf wRef wRef)).1 = 1 := by
  ext i j
  have hij : i = j := Subsingleton.elim i j
  subst hij
  simp [svdOne, toFin, Matrix.mul_apply, Matrix.transpose_apply, Matrix.one_apply,
    Fin.sum_univ_one]

/-- Helper: the `V` factor returned by `svdOne` has orthonormal columns. -/
theorem svdOne_orthV :
    (toFin 1 (svdOne (covOf wRef wRef)).2)ᵀ * toFin 1 (svdOne (covOf wRef wRef)).2 = 1 := by
  ext i j
  have hij : i = j := Subsingleton.elim i j
  subst hij
  simp [svdOne, toFin, Matrix.mul_apply, Matrix.transpose_apply, Matrix.one_apply,
    Fin.sum_univ_one]

/-- Witness for C2 at the concrete oracle `svdOne` and `1 × 1` inputs. -/
theorem solveForOptimalRotation_proper_witness :
    ((svdOne (covOf wRef wRef)).1.rows = 1 ∧
      (svdOne (covOf wRef wRef)).1.cols = 1 ∧
      (svdOne (covOf wRef wRef)).2.rows = 1 ∧
      (svdOne (covOf wRef wRef)).2.cols = 1 ∧
      (toFin 1 (svdOne (covOf wRef wRef)).1)ᵀ * toFin 1 (svdOne (covOf wRef wRef)).1 = 1 ∧
      (toFin 1 (svdOne (covOf wRef wRef)).2)ᵀ * toFin 1 (svdOne (covOf wRef wRef)).2 = 1) ∧
      (Mat.det (solveForOptimalRotation svdOne wRef wRef) = 1 ∧
        (toFin 1 (solveForOptimalRotation svdOne wRef wRef))ᵀ
            * toFin 1 (solveForOptimalRotation svdOne wRef wRef) = 1 ∧
        toFin 1 (solveForOptimalRotation svdOne wRef wRef)
            * (toFin 1 (solveForOptimalRotation svdOne wRef wRef))ᵀ = 1 ∧
        ((solveForOptimalRotation svdOne wRef wRef).rows = 1 ∧
          (solveForOptimalRotation svdOne wRef wRef).cols = 1) ∧
        (Mat.det (kabschR0 svdOne wRef wRef) < 0 →
          ∀ j, (solveForOptimalRotation svdOne wRef wRef).entry (1 - 1) j
            = -((kabschR0 svdOne wRef wRef).entry (1 - 1) j))) :=
  ⟨⟨rfl, rfl, rfl, rfl, svdOne_orthU, svdOne_orthV⟩,
    solveForOptimalRotation_proper svdOne wRef wRef 1 rfl rfl rfl rfl svdOne_orthU svdOne_orthV⟩

end Optimum
